import Mathlib

/-!
Verification development for a fragment of a browser IDE platform:
the Monaco semantic-highlighting decoration service
(`monaco-semantic-highlighting-service.ts`), the output-log viewer widget
(`output-widget.ts`), and the editor decoration-delta interface
(`editor.ts`).

The embedding is shallow: the TypeScript classes become Lean structures,
the methods become pure functions that thread the mutable maps explicitly,
and the third-party editor API (`deltaDecorations`) and the theme lookup
(`toOptions`) are oracles passed in as function parameters.  Maps keyed by
URI strings become association lists.
-/

namespace Theia

/-- A zero-based text position, as in `vscode-languageserver-types`. -/
structure Pos where
  line : Nat
  character : Nat
deriving DecidableEq, Repr

/-- A text range with inclusive start and exclusive end positions. -/
structure TextRange where
  start : Pos
  stop : Pos
deriving DecidableEq, Repr

/-- `SemanticHighlightingRange`: a range tagged with scope names
(`semantic-highlighting-service.ts`). -/
structure SemanticHighlightingRange where
  start : Pos
  stop : Pos
  scopes : List String
deriving DecidableEq, Repr

/-- `EditorDecorationOptions`: only the `inlineClassName` field is produced
by the service (`toOptions`). -/
structure EditorDecorationOptions where
  inlineClassName : Option String := none
deriving DecidableEq, Repr

/-- `EditorDecoration` from `decorations.ts`: a range plus rendering
options. -/
structure EditorDecoration where
  range : TextRange
  options : EditorDecorationOptions
deriving DecidableEq, Repr

/-- `DecorationWithRanges`: decoration identifiers returned by the editor,
paired with the raw highlighting ranges they were computed from. -/
structure DecorationWithRanges where
  decorations : List String
  ranges : List SemanticHighlightingRange
deriving DecidableEq, Repr

/-- `DecorationWithRanges.EMPTY` from the source. -/
def DecorationWithRanges.EMPTY : DecorationWithRanges :=
  { decorations := [], ranges := [] }

/-- The mutable state of `MonacoSemanticHighlightingService`: the
`toDisposeOnEditorClose` map (only its key set matters here) and the
per-URI `decorations` cache, both keyed by `uri.toString()`. -/
structure ServiceState where
  toDisposeOnEditorClose : List String
  decorations : List (String × DecorationWithRanges)
deriving Repr

/-- Association-list lookup standing for `Map.get`. -/
def assocFind (m : List (String × DecorationWithRanges)) (k : String) :
    Option DecorationWithRanges :=
  (m.find? (fun p => p.1 = k)).map Prod.snd

/-- Association-list update standing for `Map.set`: replace the entry in
place when the key is present, append otherwise. -/
def assocSet : List (String × DecorationWithRanges) → String →
    DecorationWithRanges → List (String × DecorationWithRanges)
  | [], k, v => [(k, v)]
  | p :: rest, k, v =>
    if p.1 = k then (k, v) :: rest else p :: assocSet rest k v

/-- Association-list deletion standing for `Map.delete`. -/
def assocDelete (m : List (String × DecorationWithRanges)) (k : String) :
    List (String × DecorationWithRanges) :=
  m.filter (fun p => p.1 ≠ k)

/-- The result of `editorManager.getByUri(uri)` followed by the
`instanceof MonacoEditor` test.  A found Monaco editor carries the
third-party `deltaDecorations` behaviour as an oracle: given the new
decorations and the identifiers of the old ones, it returns the
identifiers of the decorations now applied. -/
inductive EditorLookup where
  | notFound
  | nonMonaco
  | monaco (delta : List EditorDecoration → List String → List String)

/-- A record of one `deltaDecorations` call made against the editor. -/
structure DeltaCall where
  newDecorations : List EditorDecoration
  oldDecorations : List String
  result : List String

/-- `toDecoration` from the service: builds a decoration for a semantic
highlighting range.  The source shifts both characters by `+ 2`
(`XXX: This is a hack to be able to see the decorations.`); the theme
lookup behind `toOptions` is third-party, passed as an oracle. -/
def toDecoration (toOptions : List String → EditorDecorationOptions)
    (range : SemanticHighlightingRange) : EditorDecoration :=
  let start : Pos :=
    { line := range.start.line, character := range.start.character + 2 }
  let stop : Pos :=
    { line := range.stop.line, character := range.stop.character + 2 }
  { range := { start := start, stop := stop }, options := toOptions range.scopes }

/-- The start lines of the new ranges: `new Set(ranges.map(r => r.start.line))`. -/
def affectedLines (ranges : List SemanticHighlightingRange) : List Nat :=
  ranges.map (fun r => r.start.line)

/-- The range-merge step of `decorate`: discard the cached ranges whose
start line is affected by the new state and append the new ranges. -/
def mergeRanges (oldRanges newRanges : List SemanticHighlightingRange) :
    List SemanticHighlightingRange :=
  oldRanges.filter (fun r => ¬ r.start.line ∈ affectedLines newRanges)
    ++ newRanges

/-- `MonacoSemanticHighlightingService.decorate`.  Returns the updated
service state together with the `deltaDecorations` call made, if any.
The early returns for a missing widget or a non-Monaco editor leave the
state untouched and make no editor call. -/
def decorate (lookup : EditorLookup)
    (toOptions : List String → EditorDecorationOptions)
    (uri : String) (ranges : List SemanticHighlightingRange)
    (st : ServiceState) : ServiceState × Option DeltaCall :=
  match lookup with
  | .notFound => (st, none)
  | .nonMonaco => (st, none)
  | .monaco delta =>
    let key := uri
    let toDispose :=
      if key ∈ st.toDisposeOnEditorClose then st.toDisposeOnEditorClose
      else st.toDisposeOnEditorClose ++ [key]
    let oldState := (assocFind st.decorations key).getD DecorationWithRanges.EMPTY
    let rangesToCache := mergeRanges oldState.ranges ranges
    let newDecorations := rangesToCache.map (toDecoration toOptions)
    let oldDecorations := oldState.decorations
    let newState := delta newDecorations oldDecorations
    ({ toDisposeOnEditorClose := toDispose,
       decorations := assocSet st.decorations key
         { ranges := rangesToCache, decorations := newState } },
     some { newDecorations := newDecorations,
            oldDecorations := oldDecorations,
            result := newState })

/-- `MonacoSemanticHighlightingService.deleteDecorations`, run when the
editor for `uri` closes: replace all cached decorations with none and
drop the cache entry. -/
def deleteDecorations (delta : List EditorDecoration → List String → List String)
    (uri : String) (st : ServiceState) : ServiceState × Option DeltaCall :=
  match assocFind st.decorations uri with
  | none => (st, none)
  | some decorationWithRanges =>
    let oldDecorations := decorationWithRanges.decorations
    let result := delta [] oldDecorations
    ({ st with decorations := assocDelete st.decorations uri },
     some { newDecorations := [], oldDecorations := oldDecorations,
            result := result })

/-! ## The output-log viewer widget (`output-widget.ts`)

An output channel is a named text-log stream with a visibility flag.  The
`OutputChannel` class itself lives in `output-channel.ts`, outside the
reviewed material; the widget only reads `name`, `getLines()` and
`isVisible`, which we take as the channel's fields.  The output-channel
manager holds one channel object per name, so the widget's reference
comparisons (`channel === this.selectedChannel`) coincide with comparison
of channel names; the widget's selected-channel reference is therefore
modelled as the selected channel's name. -/

/-- An output channel as seen by the widget: its name, its logged lines
and its visibility flag. -/
structure OutputChannel where
  name : String
  lines : List String
  isVisible : Bool
deriving DecidableEq, Repr

/-- The state the widget renders from: the manager's channels in the
manager's order, and the currently selected channel (by name, standing
for the `selectedChannel` object reference). -/
structure WidgetState where
  channels : List OutputChannel
  selected : Option String
deriving DecidableEq, Repr

/-- The channels whose visibility flag is true, in the manager's order. -/
def visibleChannels (channels : List OutputChannel) : List OutputChannel :=
  channels.filter (fun ch => ch.isVisible)

/-- `OutputWidget.getVisibleChannels`. -/
def getVisibleChannels (st : WidgetState) : List OutputChannel :=
  visibleChannels st.channels

/-- The channel object the widget's `selectedChannel` reference points
at, recovered from the selected name. -/
def selectedChannelOf (st : WidgetState) : Option OutputChannel :=
  st.selected.bind (fun n => st.channels.find? (fun ch => ch.name = n))

/-- The virtual-DOM nodes the widget produces: text divs for log lines,
a contents div, a channel `<option>` and the channel `<select>`. -/
inductive VNode where
  | divText (content : String)
  | divOf (id : String) (children : List VNode)
  | optionOf (value : String) (selected : Bool) (label : String)
  | selectOf (id : String) (children : List VNode)
deriving Repr

/-- True for the characters of the class `[\n\r]` in the split regex. -/
def isNlChar (c : Char) : Bool :=
  c = '\n' || c = '\r'

/-- JavaScript `text.split(/([\n\r]+)/)` on the character list: the
pieces between maximal runs of newline/carriage-return characters,
interleaved with the captured runs themselves (capture groups are kept
by JavaScript `split`), including empty leading/trailing pieces. -/
def splitNlRunsAux : List Char → List (List Char)
  | [] => [[]]
  | c :: cs =>
    let rest := splitNlRunsAux cs
    if isNlChar c then
      match rest with
      | [] :: r :: tail => [] :: (c :: r) :: tail
      | _ => [] :: [c] :: rest
    else
      match rest with
      | p :: tail => (c :: p) :: tail
      | [] => [[c]]

/-- JavaScript `text.split(/([\n\r]+)/)` on strings. -/
def jsSplitNlRuns (s : String) : List String :=
  (splitNlRunsAux s.data).map String.mk

/-- The widget's `'<no output yet>'` placeholder line. -/
def noOutputYet : String := "<no output yet>"

/-- `OutputWidget.toHtmlText`: an empty line renders as the placeholder
div; a non-empty line renders one div per piece of the newline-run
split. -/
def toHtmlText (text : String) : List VNode :=
  if text = "" then [VNode.divText noOutputYet]
  else (jsSplitNlRuns text).map VNode.divText

/-- The id of the contents pane (`OUTPUT_CONTENTS_ID`). -/
def outputContentsId : String := "outputContents"

/-- `OutputWidget.renderChannelContents`: with a selected channel, a div
holding the flattened per-line html of its lines; otherwise an empty
div. -/
def renderChannelContents (st : WidgetState) : VNode :=
  match selectedChannelOf st with
  | some ch => .divOf outputContentsId (ch.lines.map toHtmlText).flatten
  | none => .divOf outputContentsId []

/-- The widget's `'<no channels>'` placeholder (`this.NONE`). -/
def noChannelsPlaceholder : String := "<no channels>"

/-- `OutputWidget.renderChannelSelector`: one `<option>` per visible
channel in the manager's order, marked selected when the channel is the
widget's selected one; a lone placeholder option when no channel is
visible. -/
def renderChannelSelector (st : WidgetState) : VNode :=
  let channelOptionElements := (getVisibleChannels st).map (fun ch =>
    VNode.optionOf ch.name (decide (st.selected = some ch.name)) ch.name)
  let elems :=
    if channelOptionElements.isEmpty then
      [VNode.optionOf noChannelsPlaceholder false noChannelsPlaceholder]
    else channelOptionElements
  VNode.selectOf "outputChannelList" elems

/-- `OutputWidget.render`. -/
def renderWidget (st : WidgetState) : List VNode :=
  [renderChannelSelector st, renderChannelContents st]

/-- The `value` attributes of the options of a rendered `<select>`: the
values the selector's change event can deliver. -/
def selectOptionValues (v : VNode) : List String :=
  match v with
  | .selectOf _ children =>
    children.filterMap (fun c =>
      match c with
      | .optionOf value _ _ => some value
      | _ => none)
  | _ => []

/-- The channel selector's `onchange` handler.  `getChannel` stands for
`outputChannelManager.getChannel`, whose class is outside the reviewed
material, so it is passed as an oracle.  The returned flag records
whether `this.update()` was called (a re-render was requested). -/
def channelSelectorOnChange (getChannel : String → Option OutputChannel)
    (st : WidgetState) (channelName : String) : WidgetState × Bool :=
  if channelName ≠ noChannelsPlaceholder then
    ({ st with selected := (getChannel channelName).map (fun ch => ch.name) },
     true)
  else
    (st, false)

/-- Modelled from the spec: the output-channel manager (class not in the
reviewed material) holds one named channel per name; deleting a channel
removes it from the manager's list. -/
def managerDeleteChannel (channels : List OutputChannel)
    (channelName : String) : List OutputChannel :=
  channels.filter (fun ch => ch.name ≠ channelName)

/-- The widget's `onChannelDelete` handler from `init`, composed with
the manager-side removal: when the deleted channel is the selected one,
the selection falls back to the first visible channel (`undefined` when
none is visible). -/
def onChannelDelete (st : WidgetState) (channelName : String) : WidgetState :=
  let channels := managerDeleteChannel st.channels channelName
  if st.selected = some channelName then
    { channels := channels,
      selected := (visibleChannels channels).head?.map (fun ch => ch.name) }
  else
    { channels := channels, selected := st.selected }

/-- Modelled from the spec: a channel's visibility flag (held by the
channel object, whose class is not in the reviewed material) is updated
before the widget's `onVisibilityChange` listener observes the event. -/
def managerSetVisible (channels : List OutputChannel)
    (channelName : String) (visible : Bool) : List OutputChannel :=
  channels.map (fun ch =>
    if ch.name = channelName then { ch with isVisible := visible } else ch)

/-- The widget's `onVisibilityChange` listener from `registerListener`,
composed with the flag update: a channel becoming visible is selected;
the selected channel becoming invisible makes the selection fall back to
the first visible channel (`undefined` when none is visible); any other
event leaves the selection alone. -/
def onVisibilityChange (st : WidgetState) (channelName : String)
    (visible : Bool) : WidgetState :=
  let channels := managerSetVisible st.channels channelName visible
  if visible then
    { channels := channels, selected := some channelName }
  else if st.selected = some channelName then
    { channels := channels,
      selected := (visibleChannels channels).head?.map (fun ch => ch.name) }
  else
    { channels := channels, selected := st.selected }

/-! ## Helper lemmas on the association-list maps -/

theorem assocFind_assocSet_self (m : List (String × DecorationWithRanges))
    (k : String) (v : DecorationWithRanges) :
    assocFind (assocSet m k v) k = some v := by
  induction m with
  | nil => simp [assocSet, assocFind]
  | cons p rest ih =>
    by_cases h : p.1 = k
    · simp [assocSet, assocFind, h]
    · simpa [assocSet, assocFind, List.find?, h] using ih

theorem assocFind_assocDelete_self (m : List (String × DecorationWithRanges))
    (k : String) :
    assocFind (assocDelete m k) k = none := by
  induction m with
  | nil => simp [assocDelete, assocFind]
  | cons p rest ih =>
    by_cases h : p.1 = k
    · simp only [assocDelete] at ih ⊢
      simp [assocFind, h, ih]
    · simp only [assocDelete] at ih ⊢
      simp [assocFind, List.find?, h, ih]

/-! ## Claims about the semantic-highlighting service -/

/-- C1: with a previously cached state for the URI, a successful
`decorate` caches exactly the old ranges whose start line is not among
the start lines of the new ranges, concatenated with the new ranges. -/
theorem decorate_caches_set_difference_merge
    (delta : List EditorDecoration → List String → List String)
    (toOptions : List String → EditorDecorationOptions)
    (uri : String) (ranges : List SemanticHighlightingRange)
    (st : ServiceState) (old : DecorationWithRanges)
    (h : assocFind st.decorations uri = some old) :
    (assocFind
        (decorate (.monaco delta) toOptions uri ranges st).1.decorations
        uri).map (fun dwr => dwr.ranges) =
      some (old.ranges.filter
          (fun r => ¬ r.start.line ∈ ranges.map (fun s => s.start.line))
        ++ ranges) := by
  simp [decorate, h, assocFind_assocSet_self, mergeRanges, affectedLines]

/-- A concrete cached range on line 0, for exercising the theorems. -/
def exRange0 : SemanticHighlightingRange :=
  { start := ⟨0, 0⟩, stop := ⟨0, 3⟩, scopes := ["x"] }

/-- A concrete cached range on line 1. -/
def exRange1 : SemanticHighlightingRange :=
  { start := ⟨1, 0⟩, stop := ⟨1, 2⟩, scopes := ["y"] }

/-- A concrete new range on line 1 (so line 1 is affected). -/
def exRangeNew : SemanticHighlightingRange :=
  { start := ⟨1, 1⟩, stop := ⟨1, 4⟩, scopes := ["z"] }

/-- A concrete cached decoration state. -/
def exOld : DecorationWithRanges :=
  { decorations := ["d0", "d1"], ranges := [exRange0, exRange1] }

/-- A concrete service state caching `exOld` for URI `file:a`. -/
def exServiceState : ServiceState :=
  { toDisposeOnEditorClose := [], decorations := [("file:a", exOld)] }

/-- C1 witness: a concrete cached state with two old ranges, one of them
on an affected line. -/
theorem decorate_caches_set_difference_merge_witness :
    assocFind exServiceState.decorations "file:a" = some exOld ∧
    (assocFind
        (decorate (.monaco (fun _ _ => ["e0"])) (fun _ => {}) "file:a"
          [exRangeNew] exServiceState).1.decorations
        "file:a").map (fun dwr => dwr.ranges) =
      some (exOld.ranges.filter
          (fun r => ¬ r.start.line ∈ [exRangeNew].map (fun s => s.start.line))
        ++ [exRangeNew]) :=
  ⟨by decide, decorate_caches_set_difference_merge _ _ _ _ _ _ (by decide)⟩

/-- C2: after every `decorate` that finds a Monaco editor, the
decoration-id list cached for the URI equals exactly the identifier list
returned by the `deltaDecorations` call made during that `decorate`. -/
theorem decorate_cache_mirrors_delta_result
    (delta : List EditorDecoration → List String → List String)
    (toOptions : List String → EditorDecorationOptions)
    (uri : String) (ranges : List SemanticHighlightingRange)
    (st : ServiceState) :
    ∃ call,
      (decorate (.monaco delta) toOptions uri ranges st).2 = some call ∧
      (assocFind
          (decorate (.monaco delta) toOptions uri ranges st).1.decorations
          uri).map (fun dwr => dwr.decorations) = some call.result ∧
      call.result = delta call.newDecorations call.oldDecorations := by
  refine ⟨_, rfl, ?_, rfl⟩
  simp [decorate, assocFind_assocSet_self]

/-- C3: when no editor widget is found for the URI, or the found editor
is not a Monaco editor, `decorate` is a silent no-op: the service state
is returned unchanged and no `deltaDecorations` call is made. -/
theorem decorate_noop_without_monaco_editor
    (toOptions : List String → EditorDecorationOptions)
    (uri : String) (ranges : List SemanticHighlightingRange)
    (st : ServiceState) :
    decorate .notFound toOptions uri ranges st = (st, none) ∧
    decorate .nonMonaco toOptions uri ranges st = (st, none) :=
  ⟨rfl, rfl⟩

/-- C4 counterexample: `toDecoration` does not keep the range's
characters: at the range (0,0)-(0,1) the produced decoration spans
(0,2)-(0,3), because the source shifts both characters by 2
(the `XXX` hack). -/
theorem toDecoration_range_not_equal_counterexample :
    ¬ ((toDecoration (fun _ => {})
          { start := ⟨0, 0⟩, stop := ⟨0, 1⟩, scopes := ["s"] }).range =
        { start := ⟨0, 0⟩, stop := ⟨0, 1⟩ }) := by
  decide

/-- C4 amended: the decoration produced for a semantic highlighting
range keeps the range's start and end lines, and shifts the start and
end characters each by exactly 2. -/
theorem toDecoration_keeps_lines_shifts_characters
    (toOptions : List String → EditorDecorationOptions)
    (r : SemanticHighlightingRange) :
    (toDecoration toOptions r).range.start.line = r.start.line ∧
    (toDecoration toOptions r).range.stop.line = r.stop.line ∧
    (toDecoration toOptions r).range.start.character = r.start.character + 2 ∧
    (toDecoration toOptions r).range.stop.character = r.stop.character + 2 :=
  ⟨rfl, rfl, rfl, rfl⟩

/-- C7: with a cached state for the URI, `decorate` passes exactly the
previously cached decoration identifiers as `oldDecorations` to the
editor, and `deleteDecorations` passes all cached identifiers with an
empty new-decoration list and deletes the URI's cache entry. -/
theorem old_decorations_passed_and_deleted
    (delta : List EditorDecoration → List String → List String)
    (toOptions : List String → EditorDecorationOptions)
    (uri : String) (ranges : List SemanticHighlightingRange)
    (st : ServiceState) (prev : DecorationWithRanges)
    (h : assocFind st.decorations uri = some prev) :
    ((decorate (.monaco delta) toOptions uri ranges st).2).map
        (fun call => call.oldDecorations) = some prev.decorations ∧
    ((deleteDecorations delta uri st).2).map
        (fun call => (call.newDecorations, call.oldDecorations)) =
      some ([], prev.decorations) ∧
    assocFind (deleteDecorations delta uri st).1.decorations uri = none := by
  refine ⟨?_, ?_, ?_⟩ <;>
    simp [decorate, deleteDecorations, h, assocFind_assocDelete_self]

/-- C7 witness: the concrete cached state `exServiceState` exercising
both `decorate`'s `oldDecorations` argument and `deleteDecorations`. -/
theorem old_decorations_passed_and_deleted_witness :
    assocFind exServiceState.decorations "file:a" = some exOld ∧
    (((decorate (.monaco (fun _ _ => [])) (fun _ => {}) "file:a" []
          exServiceState).2).map (fun call => call.oldDecorations) =
        some exOld.decorations ∧
      ((deleteDecorations (fun _ _ => []) "file:a" exServiceState).2).map
          (fun call => (call.newDecorations, call.oldDecorations)) =
        some ([], exOld.decorations) ∧
      assocFind
          (deleteDecorations (fun _ _ => []) "file:a" exServiceState).1.decorations
          "file:a" = none) :=
  ⟨by decide,
    old_decorations_passed_and_deleted _ _ _ _ _ exOld (by decide)⟩

/-- C9: the range-merge step of `decorate` is idempotent: merging the
same new range list twice caches the same ranges as merging it once. -/
theorem mergeRanges_idempotent (old rs : List SemanticHighlightingRange) :
    mergeRanges (mergeRanges old rs) rs = mergeRanges old rs := by
  have hrs : rs.filter
      (fun r => ¬ r.start.line ∈ affectedLines rs) = [] := by
    rw [List.filter_eq_nil_iff]
    intro r hr
    simp [affectedLines]
    exact ⟨r, hr, rfl⟩
  simp only [mergeRanges, List.filter_append, hrs, List.append_nil,
    List.filter_filter]
  congr 1
  apply List.filter_congr
  intro r _
  simp

/-! ## Helper lemmas on the output widget -/

theorem splitNlRunsAux_flatten (l : List Char) :
    (splitNlRunsAux l).flatten = l := by
  induction l with
  | nil => rfl
  | cons c cs ih =>
    simp only [splitNlRunsAux]
    by_cases h : isNlChar c
    · simp only [h, if_true]
      rcases hr : splitNlRunsAux cs with _ | ⟨p, tail⟩ <;> rw [hr] at ih
      · simp only [List.flatten_nil] at ih
        simp [← ih]
      · rcases p with _ | ⟨a, p2⟩
        · rcases tail with _ | ⟨r, tail2⟩
          · simp only [List.flatten_cons, List.flatten_nil, List.append_nil,
              List.nil_append] at ih
            simp [← ih]
          · rw [← ih]
            simp
        · rw [← ih]
          simp
    · simp only [h, if_false]
      rcases hr : splitNlRunsAux cs with _ | ⟨p, tail⟩ <;> rw [hr] at ih
      · simp only [List.flatten_nil] at ih
        simp [← ih]
      · rw [← ih]
        simp

theorem jsSplitNlRuns_join (s : String) :
    String.join (jsSplitNlRuns s) = s := by
  refine String.ext ?_
  have hid : (String.data ∘ String.mk) = id := rfl
  simp [jsSplitNlRuns, String.data_join, List.map_map, hid,
    splitNlRunsAux_flatten]

theorem filterMap_value_of_map_optionOf (sel : Option String)
    (l : List OutputChannel) :
    ((l.map (fun ch =>
        VNode.optionOf ch.name (decide (sel = some ch.name)) ch.name)).filterMap
      (fun c => match c with
        | VNode.optionOf value _ _ => some value
        | _ => none)) = l.map (fun ch => ch.name) := by
  induction l with
  | nil => rfl
  | cons x xs ih =>
    simp only [List.map_cons, List.filterMap_cons]
    rw [ih]

theorem selectOptionValues_renderChannelSelector (st : WidgetState) :
    selectOptionValues (renderChannelSelector st) =
      if (getVisibleChannels st).isEmpty then [noChannelsPlaceholder]
      else (getVisibleChannels st).map (fun ch => ch.name) := by
  cases h : getVisibleChannels st with
  | nil => simp [renderChannelSelector, selectOptionValues, h]
  | cons a rest =>
    simp only [renderChannelSelector, selectOptionValues, h, List.map_cons,
      List.isEmpty_cons, Bool.false_eq_true, if_false, List.isEmpty_nil]
    simpa using filterMap_value_of_map_optionOf st.selected (a :: rest)

/-! ## Concrete output channels and widget states for the witnesses -/

/-- A visible channel with a two-segment line and an empty line. -/
def exChannelA : OutputChannel :=
  { name := "build", lines := ["a\nb", ""], isVisible := true }

/-- A hidden channel. -/
def exChannelB : OutputChannel :=
  { name := "tasks", lines := ["x"], isVisible := false }

/-- A widget state with the visible channel selected. -/
def exWidgetState : WidgetState :=
  { channels := [exChannelA, exChannelB], selected := some "build" }

/-- A widget state with no visible channel and nothing selected. -/
def exWidgetStateEmpty : WidgetState :=
  { channels := [exChannelB], selected := none }

/-! ## Claims about the output widget -/

/-- C5: a selected channel name that came from the rendered selector's
options but is not among the manager's channels must be the
`'<no channels>'` placeholder, and the change handler then leaves the
widget state unchanged and requests no re-render. -/
theorem selector_onchange_unknown_name_noop
    (getChannel : String → Option OutputChannel) (st : WidgetState)
    (channelName : String)
    (hin : channelName ∈ selectOptionValues (renderChannelSelector st))
    (hout : ¬ channelName ∈ st.channels.map (fun ch => ch.name)) :
    channelSelectorOnChange getChannel st channelName = (st, false) := by
  rw [selectOptionValues_renderChannelSelector st] at hin
  by_cases he : (getVisibleChannels st).isEmpty
  · rw [if_pos he] at hin
    simp only [List.mem_singleton] at hin
    simp [channelSelectorOnChange, hin]
  · rw [if_neg he] at hin
    exfalso
    apply hout
    simp only [List.mem_map] at hin ⊢
    obtain ⟨ch, hch, rfl⟩ := hin
    simp only [getVisibleChannels, visibleChannels] at hch
    exact ⟨ch, List.mem_of_mem_filter hch, rfl⟩

/-- C5 witness: with no visible channel the selector offers only the
placeholder, and choosing it is a no-op. -/
theorem selector_onchange_unknown_name_noop_witness :
    noChannelsPlaceholder ∈
      selectOptionValues (renderChannelSelector exWidgetStateEmpty) ∧
    ¬ noChannelsPlaceholder ∈
      exWidgetStateEmpty.channels.map (fun ch => ch.name) ∧
    channelSelectorOnChange (fun _ => none) exWidgetStateEmpty
      noChannelsPlaceholder = (exWidgetStateEmpty, false) :=
  ⟨by decide, by decide,
    selector_onchange_unknown_name_noop _ _ _ (by decide) (by decide)⟩

/-- C6: with a selected channel the contents pane holds, in order, one
div per split piece of each non-empty line (split on runs of
newline/carriage-return characters) and a single placeholder div per
empty line — and the split pieces of a line concatenate back to exactly
that line; with no selected channel the contents pane is empty. -/
theorem render_contents_selected_channel_lines (st : WidgetState) :
    (∀ ch, selectedChannelOf st = some ch →
      renderChannelContents st =
        .divOf outputContentsId
          ((ch.lines.map (fun line =>
            if line = "" then [VNode.divText noOutputYet]
            else (jsSplitNlRuns line).map VNode.divText)).flatten)) ∧
    (selectedChannelOf st = none →
      renderChannelContents st = .divOf outputContentsId []) ∧
    (∀ line : String, String.join (jsSplitNlRuns line) = line) := by
  refine ⟨?_, ?_, jsSplitNlRuns_join⟩
  · intro ch h
    simp only [renderChannelContents, h]
    rfl
  · intro h
    simp [renderChannelContents, h]

/-- C6 witness: a concrete channel with the lines `"a\nb"` and `""`. -/
theorem render_contents_selected_channel_lines_witness :
    selectedChannelOf exWidgetState = some exChannelA ∧
    renderChannelContents exWidgetState =
      .divOf outputContentsId
        ((exChannelA.lines.map (fun line =>
          if line = "" then [VNode.divText noOutputYet]
          else (jsSplitNlRuns line).map VNode.divText)).flatten) :=
  ⟨by decide,
    (render_contents_selected_channel_lines exWidgetState).1 exChannelA
      (by decide)⟩

/-- C8: the selector drop-down lists exactly the channels whose
visibility flag is true, in the manager's order, marking the selected
one; with no visible channel it lists the single placeholder option. -/
theorem selector_lists_visible_channels (st : WidgetState) :
    (getVisibleChannels st ≠ [] →
      renderChannelSelector st =
        .selectOf "outputChannelList"
          ((st.channels.filter (fun ch => ch.isVisible)).map (fun ch =>
            VNode.optionOf ch.name (decide (st.selected = some ch.name))
              ch.name))) ∧
    (getVisibleChannels st = [] →
      renderChannelSelector st =
        .selectOf "outputChannelList"
          [VNode.optionOf noChannelsPlaceholder false noChannelsPlaceholder]) := by
  constructor
  · intro h
    simp only [renderChannelSelector, getVisibleChannels, visibleChannels] at *
    cases hv : st.channels.filter (fun ch => ch.isVisible) with
    | nil => exact absurd hv h
    | cons a rest => simp [hv]
  · intro h
    simp only [renderChannelSelector, getVisibleChannels, visibleChannels] at *
    simp [h]

/-- C8 witness: one visible and one hidden channel, the visible one
selected. -/
theorem selector_lists_visible_channels_witness :
    getVisibleChannels exWidgetState ≠ [] ∧
    renderChannelSelector exWidgetState =
      .selectOf "outputChannelList"
        ((exWidgetState.channels.filter (fun ch => ch.isVisible)).map
          (fun ch =>
            VNode.optionOf ch.name
              (decide (exWidgetState.selected = some ch.name)) ch.name)) :=
  ⟨by decide, (selector_lists_visible_channels exWidgetState).1 (by decide)⟩

/-- C10: deleting or hiding the selected channel makes the selection
fall back to the first visible channel of the updated manager state
(none when no channel is visible); deleting or hiding another channel
leaves the selection unchanged. -/
theorem selection_after_delete_or_hide (st : WidgetState)
    (channelName : String) :
    (st.selected = some channelName →
      (onChannelDelete st channelName).selected =
        (visibleChannels (managerDeleteChannel st.channels
          channelName)).head?.map (fun ch => ch.name) ∧
      (onVisibilityChange st channelName false).selected =
        (visibleChannels (managerSetVisible st.channels channelName
          false)).head?.map (fun ch => ch.name)) ∧
    (st.selected ≠ some channelName →
      (onChannelDelete st channelName).selected = st.selected ∧
      (onVisibilityChange st channelName false).selected = st.selected) := by
  constructor <;> intro h <;>
    exact ⟨by simp [onChannelDelete, h], by simp [onVisibilityChange, h]⟩

/-- C10 witness: deleting or hiding the selected channel `"build"` while
the only other channel is hidden empties the selection. -/
theorem selection_after_delete_or_hide_witness :
    exWidgetState.selected = some "build" ∧
    ((onChannelDelete exWidgetState "build").selected =
      (visibleChannels (managerDeleteChannel exWidgetState.channels
        "build")).head?.map (fun ch => ch.name) ∧
    (onVisibilityChange exWidgetState "build" false).selected =
      (visibleChannels (managerSetVisible exWidgetState.channels "build"
        false)).head?.map (fun ch => ch.name)) :=
  ⟨by decide,
    (selection_after_delete_or_hide exWidgetState "build").1 (by decide)⟩

end Theia
